import Mathlib

/-!
# Verification of the `wdk-wallet-btc` wallet account

Shallow embedding of `src/wallet-account-btc.js` (class `WalletAccountBtc`).

Modelling conventions, used throughout:

* Satoshi amounts are `Int` (the source manipulates them as JS numbers and
  `BigNumber` integers; no overflow is possible at these magnitudes).
* Byte buffers are `List Nat`, one entry per byte.
* Transaction ids (hex strings in the source) are abstract `Nat` identifiers;
  the `Buffer.reverse().toString('hex')` re-encoding of an input's hash is
  absorbed into the identifier, which is what the Electrum lookups key on.
* Bech32m addresses produced by `payments.p2tr` are represented by the 32-byte
  x-only program they encode (the encoding is injective for a fixed network),
  so address equality is program equality.
* The Electrum server is an oracle: a fixed unspent list, a partial map from
  transaction id to decoded transaction, and a fee rate.  A failing
  `getTransaction` RPC (a thrown error in JS) is `none`.
* `BigNumber` decimal arithmetic is ℚ arithmetic; its
  `integerValue(ROUND_CEIL)` is `bnCeil` below.
-/

namespace WdkWalletBtc

/-- `DUST_LIMIT` from `wallet-account-btc.js` line 64. -/
def DUST_LIMIT : Int := 546

/-- The fee floor hard-coded in `_getRawTransaction`
(`BigNumber.max(estimatedFee, new BigNumber(141))`). -/
def MIN_FEE_FLOOR : Int := 141

/-- The distinct failure modes of the account code, by the error actually
thrown.  `disposed` is the `Disposed` error kind named by the specification's
error taxonomy; the implementation never constructs it (after `dispose` the
code fails with a `TypeError` from reading a property of `undefined`, the
`typeError` constructor). -/
inductive Err
  | noUnspent
  | insufficientBalance
  | amountBelowDust
  | txLookupFailed
  | typeError
  | disposed
  | opReturnTooLong
deriving DecidableEq

/-- Decidable equality for `Except` results, so that concrete runs of the
model can be checked by `decide`. -/
instance {E A : Type} [DecidableEq E] [DecidableEq A] :
    DecidableEq (Except E A) := fun x y =>
  match x, y with
  | .ok a, .ok b =>
    if h : a = b then .isTrue (by rw [h]) else .isFalse fun hh => h (Except.ok.inj hh)
  | .error a, .error b =>
    if h : a = b then .isTrue (by rw [h]) else .isFalse fun hh => h (Except.error.inj hh)
  | .ok _, .error _ => .isFalse fun hh => Except.noConfusion hh
  | .error _, .ok _ => .isFalse fun hh => Except.noConfusion hh

/-- `createOpReturnScript` (`wallet-account-btc.js` lines 238-276), after the
input has been normalised to bytes (`Buffer.from`): length check against 80,
then `OP_RETURN` (0x6a = 106) followed by the push opcode — a plain
`OP_PUSHBYTES_n` length byte for `n ≤ 75`, `OP_PUSHDATA1` (0x4c = 76),
`OP_PUSHDATA2` (0x4d = 77, little endian) or `OP_PUSHDATA4` (0x4e = 78,
little endian) otherwise — and the data verbatim. -/
def createOpReturnScript (data : List Nat) : Except Err (List Nat) :=
  if 80 < data.length then .error .opReturnTooLong
  else if data.length ≤ 75 then
    .ok (106 :: data.length :: data)
  else if data.length ≤ 255 then
    .ok (106 :: 76 :: data.length :: data)
  else if data.length ≤ 65535 then
    .ok (106 :: 77 :: data.length % 256 :: data.length / 256 :: data)
  else
    .ok (106 :: 78 :: data.length % 256 :: data.length / 256 % 256 ::
      data.length / 65536 % 256 :: data.length / 16777216 % 256 :: data)

/-!
## Transaction building (`createPsbt` / `_getRawTransaction`)

`sendTransaction` and `quoteSendTransaction` reach `_getRawTransaction`
through `_getTransaction` with no `additionalOutputs`, so the embedding is the
source specialised at `additionalOutputs = []` (hence
`additionalOutputsTotal = 0`).  PSBT assembly and Schnorr signing are
serialization-level mechanics; the model keeps exactly what the claims are
about: the input set, the output list `(destination address, value)` in the
order `psbt.addOutput` is called, and the fee.  The one observable effect of
the signing block is that it reads `this._account.privateKey`
(`ecc.privateAdd(this._account.privateKey, tapTweakHash)`), which throws a
`TypeError` once `dispose` has set `this._account = undefined`; the `disposed`
flag models that access.
-/

/-- An element of `blockchain.scripthash.listunspent`. -/
structure UtxoRef where
  tx_hash : Nat
  tx_pos : Nat
  value : Int
  height : Int
deriving DecidableEq

/-- A transaction output as decoded by `ElectrumClient.getTransaction`
(bitcoinjs `Transaction.outs`): value plus `script` bytes. -/
structure TxOut where
  value : Int
  script : List Nat
deriving DecidableEq

/-- A transaction input (bitcoinjs `Transaction.ins`): the previous
transaction's id (see the id convention in the header) and output index. -/
structure TxIn where
  prevId : Nat
  prevIndex : Nat
deriving DecidableEq

/-- A decoded transaction. -/
structure Tx where
  ins : List TxIn
  outs : List TxOut
deriving DecidableEq

/-- The UTXO object assembled by `_getUtxos`: the `listunspent` fields spread
together with the `vout` copied from the fetched previous transaction
(`{ value, scriptPubKey: { hex } }`). -/
structure CollectedUtxo where
  tx_hash : Nat
  tx_pos : Nat
  value : Int
  height : Int
  voutValue : Int
  voutScript : List Nat
deriving DecidableEq

/-- `BigNumber(feeRate).multipliedBy(vsize).integerValue(BigNumber.ROUND_CEIL)`:
the exact product `q · n` rounded towards positive infinity.  It is computed
on the numerator so that concrete runs reduce in the kernel
(`⌈a / b⌉ = -((-a) / b)` for a positive denominator, with `/` the Euclidean
division of `Int`); `bnCeilMulNat_eq_ceil` proves it equal to `⌈q · n⌉`. -/
def bnCeilMulNat (q : ℚ) (n : Nat) : Int :=
  -((-(q.num * (n : Int))) / (q.den : Int))

/-- Sum of the `value` fields of a UTXO set, as
`utxoSet.reduce((sum, utxo) => sum.plus(utxo.value), new BigNumber(0))`. -/
def utxoTotal (utxoSet : List CollectedUtxo) : Int :=
  utxoSet.foldl (fun s u => s + u.value) 0

/-- Sum of the values of a built output list. -/
def outTotal (outs : List (String × Int)) : Int :=
  outs.foldl (fun s o => s + o.2) 0

/-- The `createPsbt` closure of `_getRawTransaction` (lines 568-662),
specialised at `additionalOutputs = []` and reduced to its observable output
list.  Steps, in source order: add the recipient output `(recipient, amount)`;
compute `change = totalInput - amount - 0 - fee`; if `change > DUST_LIMIT`
add a change output paying the account's own address, else if `change < 0`
throw `Insufficient balance`; finally the signing block reads
`this._account.privateKey`, a `TypeError` when the account is disposed. -/
def createPsbt (selfAddr recipient : String) (totalInput amount fee : Int)
    (disposed : Bool) : Except Err (List (String × Int)) :=
  let outs : List (String × Int) := [(recipient, amount)]
  let change := totalInput - amount - fee
  if DUST_LIMIT < change then
    if disposed then .error .typeError
    else .ok (outs ++ [(selfAddr, change)])
  else if change < 0 then .error .insufficientBalance
  else
    if disposed then .error .typeError
    else .ok outs

/-- The result of `_getRawTransaction`: the serialized transaction's inputs
(the selected UTXO set) and outputs, plus the reported fee. -/
structure RawTx where
  ins : List CollectedUtxo
  outs : List (String × Int)
  fee : Int
deriving DecidableEq

/-- `_getRawTransaction` (lines 564-674): dust check on `amount`; first
`createPsbt(0)` pass to obtain a dummy transaction whose virtual size `vsize`
is reported by bitcoinjs (`virtualSize()` is serialization-external, so the
model takes it as an oracle input); `estimatedFee =
max(ceil(feeRate · vsize), 141)`; second `createPsbt(estimatedFee)` pass. -/
def getRawTransaction (selfAddr recipient : String)
    (utxoSet : List CollectedUtxo) (amount : Int) (feeRate : ℚ) (vsize : Nat)
    (disposed : Bool) : Except Err RawTx :=
  if amount ≤ DUST_LIMIT then .error .amountBelowDust
  else
    let totalInput := utxoTotal utxoSet
    match createPsbt selfAddr recipient totalInput amount 0 disposed with
    | .error e => .error e
    | .ok _ =>
      let estimatedFee : Int := max (bnCeilMulNat feeRate vsize) MIN_FEE_FLOOR
      match createPsbt selfAddr recipient totalInput amount estimatedFee disposed with
      | .error e => .error e
      | .ok outs => .ok ⟨utxoSet, outs, estimatedFee⟩

/-!
## UTXO planning (`_getUtxos`) and the send pipeline (`_getTransaction`)

`_getTransaction` performs I/O through the Electrum client; the model records
every RPC issued, in order, alongside the result, so that "before any I/O"
claims are statable.
-/

/-- An Electrum RPC issued by the send pipeline. -/
inductive Rpc
  | getUnspent
  | getTx (id : Nat)
  | feeEstimate
  | broadcast
deriving DecidableEq

/-- The Electrum server as seen by one account: the unspent list for the
account's address, transaction lookup (`none` = the RPC throws), and the
estimated fee rate in sat/vB. -/
structure Gateway where
  unspent : List UtxoRef
  getTx : Nat → Option Tx
  feeRate : ℚ

/-- The `for`-loop of `_getUtxos` (lines 545-559): walk the unspent list in
server order; fetch each UTXO's previous transaction (an RPC, traced); read
`tx.outs[utxo.tx_pos]` (a `TypeError` when out of range); push the combined
UTXO; stop as soon as the collected value reaches `amount`. -/
def getUtxosGo (getTx : Nat → Option Tx) (amount : Int) :
    List UtxoRef → Int → List CollectedUtxo → List Rpc →
    Except Err (List CollectedUtxo) × List Rpc
  | [], _, acc, tr => (.ok acc, tr)
  | u :: rest, collected, acc, tr =>
    let tr := tr ++ [.getTx u.tx_hash]
    match getTx u.tx_hash with
    | none => (.error .txLookupFailed, tr)
    | some tx =>
      match tx.outs[u.tx_pos]? with
      | none => (.error .typeError, tr)
      | some vout =>
        let acc := acc ++
          [⟨u.tx_hash, u.tx_pos, u.value, u.height, vout.value, vout.script⟩]
        let collected := collected + u.value
        if amount ≤ collected then (.ok acc, tr)
        else getUtxosGo getTx amount rest collected acc tr

/-- `_getUtxos` (lines 538-561): request the unspent list (an RPC, traced);
throw `No unspent outputs available.` if it is empty; otherwise walk it. -/
def getUtxos (gw : Gateway) (amount : Int) :
    Except Err (List CollectedUtxo) × List Rpc :=
  if gw.unspent.isEmpty then (.error .noUnspent, [.getUnspent])
  else getUtxosGo gw.getTx amount gw.unspent 0 [] [.getUnspent]

/-- Whether a `listunspent` entry's previous transaction can be fetched and
has an output at the entry's index — the condition under which the planner's
walk does not throw on this entry. -/
def resolvesRef (getTx : Nat → Option Tx) (u : UtxoRef) : Bool :=
  match getTx u.tx_hash with
  | some tx => (tx.outs[u.tx_pos]?).isSome
  | none => false

/-- The combined UTXO the walk builds for one resolvable entry. -/
def collectUtxo (getTx : Nat → Option Tx) (u : UtxoRef) : CollectedUtxo :=
  match getTx u.tx_hash with
  | some tx =>
    match tx.outs[u.tx_pos]? with
    | some vout => ⟨u.tx_hash, u.tx_pos, u.value, u.height, vout.value, vout.script⟩
    | none => ⟨u.tx_hash, u.tx_pos, u.value, u.height, 0, []⟩
  | none => ⟨u.tx_hash, u.tx_pos, u.value, u.height, 0, []⟩

/-- The selection claimed by the specification for `_getUtxos` (claim C7):
the first — i.e. shortest — prefix of the unspent list whose accumulated
value is at least the target amount, or the whole list when the total stays
below it.  In particular, for a target ≤ 0 this is the empty prefix. -/
def claimedUtxoSelection (amount : Int) : List UtxoRef → List UtxoRef
  | [] => []
  | u :: rest =>
    if amount ≤ 0 then []
    else u :: claimedUtxoSelection (amount - u.value) rest

/-- `_getTransaction` (lines 518-535) for a plain send (no
`additionalOutputs`, so the target handed to `_getUtxos` is `amount` itself):
select UTXOs, then take the fee rate — the caller's custom rate, or the
`getFeeEstimateInSatsPerVb` RPC — floor it at 1 sat/vB, and build. -/
def getTransaction (gw : Gateway) (selfAddr recipient : String) (amount : Int)
    (customFeeRate : Option ℚ) (vsize : Nat) (disposed : Bool) :
    Except Err RawTx × List Rpc :=
  match getUtxos gw amount with
  | (.error e, tr) => (.error e, tr)
  | (.ok utxoSet, tr) =>
    let rateAndTrace : ℚ × List Rpc :=
      match customFeeRate with
      | some r => (r, [])
      | none => (gw.feeRate, [.feeEstimate])
    let feeRate := if rateAndTrace.1 < 1 then 1 else rateAndTrace.1
    (getRawTransaction selfAddr recipient utxoSet amount feeRate vsize disposed,
      tr ++ rateAndTrace.2)

/-- `quoteSendTransaction` (lines 355-361): build and report the fee. -/
def quoteSendTransaction (gw : Gateway) (selfAddr recipient : String)
    (amount : Int) (vsize : Nat) (disposed : Bool) : Except Err Int × List Rpc :=
  match getTransaction gw selfAddr recipient amount none vsize disposed with
  | (.error e, tr) => (.error e, tr)
  | (.ok t, tr) => (.ok t.fee, tr)

/-- `sendTransaction` (lines 337-346): build, broadcast (an RPC, traced),
and report the fee. -/
def sendTransaction (gw : Gateway) (selfAddr recipient : String)
    (amount : Int) (vsize : Nat) (disposed : Bool) : Except Err Int × List Rpc :=
  match getTransaction gw selfAddr recipient amount none vsize disposed with
  | (.error e, tr) => (.error e, tr)
  | (.ok t, tr) => (.ok t.fee, tr ++ [.broadcast])

/-!
## History resolution (`getTransfers`)
-/

/-- Transfer direction as recorded in a `BtcTransfer`. -/
inductive Direction
  | incoming
  | outgoing
deriving DecidableEq

/-- The `direction` option of `getTransfers` (`"incoming" | "outgoing" |
"all"`, default `"all"`). -/
inductive DirFilter
  | all
  | incoming
  | outgoing
deriving DecidableEq

/-- The JS comparison `direction !== 'all' && direction !== directionType`
negated: whether a record of direction `dt` passes the filter. -/
def matchesFilter (dirF : DirFilter) (dt : Direction) : Bool :=
  match dirF, dt with
  | .all, _ => true
  | .incoming, .incoming => true
  | .outgoing, .outgoing => true
  | _, _ => false

/-- An entry of `blockchain.scripthash.get_history`. -/
structure HistoryItem where
  tx_hash : Nat
  height : Int
deriving DecidableEq

/-- The chain as seen through the Electrum client by `getTransfers`: the
address's history and transaction lookup (`none` = the RPC throws). -/
structure Chain where
  history : List HistoryItem
  getTx : Nat → Option Tx

/-- An address in the model: the 32-byte x-only program a Bech32m P2TR
address encodes (see the header; the encoding is injective for a fixed
network, so address comparison is program comparison). -/
abbrev Addr := List Nat

/-- The `decodeScriptAddress` helper of `getTransfers` (lines 403-415):
`payments.p2tr({ output: script })` succeeds exactly on a 34-byte script
`OP_1 (0x51 = 81) OP_PUSHBYTES_32 (0x20 = 32) <32-byte program>` and yields
the address encoding that program (the x-only point validity check of the ecc
backend is modelled as passing — the claims quantify over decode results, so
nothing below depends on it). -/
def decodeScriptAddress (script : List Nat) : Option Addr :=
  match script with
  | 81 :: 32 :: key => if key.length = 32 then some key else none
  | _ => none

/-- The P2TR output script for a 32-byte program — the shape
`decodeScriptAddress` accepts. -/
def p2trScript (key : Addr) : List Nat := 81 :: 32 :: key

/-- The `getInputValue` helper (lines 425-435): for each input, fetch the
previous transaction and add `prevTx.outs[input.index].value`; any failure
(RPC throw or out-of-range index) is caught and contributes nothing. -/
def getInputValue (getTx : Nat → Option Tx) : List TxIn → Int
  | [] => 0
  | i :: rest =>
    (match getTx i.prevId with
      | some prevTx =>
        match prevTx.outs[i.prevIndex]? with
        | some o => o.value
        | none => 0
      | none => 0) + getInputValue getTx rest

/-- Whether one input spends a previous output whose script decodes to the
account's own address — the per-input test of `isOutgoingTx`, with lookup
failures (caught in the source) counting as `false`. -/
def inputSpendsSelf (getTx : Nat → Option Tx) (self : Addr) (i : TxIn) : Bool :=
  match getTx i.prevId with
  | some prevTx =>
    match prevTx.outs[i.prevIndex]? with
    | some o =>
      match decodeScriptAddress o.script with
      | some addr => addr = self
      | none => false
    | none => false
  | none => false

/-- The `isOutgoingTx` helper (lines 437-448): true iff some input's
resolvable previous output decodes to the account's own address. -/
def isOutgoingTx (getTx : Nat → Option Tx) (self : Addr) : List TxIn → Bool
  | [] => false
  | i :: rest => inputSpendsSelf getTx self i || isOutgoingTx getTx self rest

/-- The sum `tx.outs.reduce((sum, o) => sum + o.value, 0)`. -/
def txOutTotal (tx : Tx) : Int :=
  tx.outs.foldl (fun s o => s + o.value) 0

/-- The fee computed per transaction by `getTransfers` (line 459):
`totalInput > 0 ? +(totalInput - totalOutput).toFixed(8) : null` — with
satoshi integers, `toFixed(8)` followed by unary `+` is the identity. -/
def transferFee (getTx : Nat → Option Tx) (tx : Tx) : Option Int :=
  if 0 < getInputValue getTx tx.ins then
    some (getInputValue getTx tx.ins - txOutTotal tx)
  else none

/-- One transfer record (`BtcTransfer`). -/
structure Transfer where
  txid : Nat
  height : Int
  value : Int
  vout : Nat
  direction : Direction
  recipient : Addr
  fee : Option Int
  address : Addr
deriving DecidableEq

/-- The inner `for ([index, out] of tx.outs.entries())` loop of
`getTransfers` (lines 462-491): decode each output as P2TR (skip on failure);
classify against the account's own address and the transaction's outgoing
flag — to self and not outgoing → `incoming`; not to self and outgoing →
`outgoing`; to self and outgoing → change, skipped; neither → skipped; then
apply the direction filter, stop at `limit`, and push the record.  The pushed
`recipient` is `extractAddress({hex, address: addr})`, i.e. the decoded
address itself. -/
def processOuts (self : Addr) (txid : Nat) (height : Int) (fee : Option Int)
    (outgoing : Bool) (dirF : DirFilter) (limit : Nat) :
    List (Nat × TxOut) → List Transfer → List Transfer
  | [], acc => acc
  | (index, out) :: rest, acc =>
    match decodeScriptAddress out.script with
    | none => processOuts self txid height fee outgoing dirF limit rest acc
    | some addr =>
      if addr = self then
        if outgoing then
          -- change output: skipped
          processOuts self txid height fee outgoing dirF limit rest acc
        else
          if matchesFilter dirF .incoming then
            if limit ≤ acc.length then acc
            else processOuts self txid height fee outgoing dirF limit rest
              (acc ++ [⟨txid, height, out.value, index, .incoming, addr, fee, self⟩])
          else processOuts self txid height fee outgoing dirF limit rest acc
      else
        if outgoing then
          if matchesFilter dirF .outgoing then
            if limit ≤ acc.length then acc
            else processOuts self txid height fee outgoing dirF limit rest
              (acc ++ [⟨txid, height, out.value, index, .outgoing, addr, fee, self⟩])
          else processOuts self txid height fee outgoing dirF limit rest acc
        else
          -- neither to self nor outgoing: skipped
          processOuts self txid height fee outgoing dirF limit rest acc

/-- The outer `for (item of history.slice(skip))` loop of `getTransfers`
(lines 452-492): stop at `limit`; fetch the transaction (an uncaught throw
fails the whole call); compute fee and outgoing flag; process its outputs. -/
def getTransfersGo (getTx : Nat → Option Tx) (self : Addr) (dirF : DirFilter)
    (limit : Nat) : List HistoryItem → List Transfer →
    Except Err (List Transfer)
  | [], acc => .ok acc
  | item :: rest, acc =>
    if limit ≤ acc.length then .ok acc
    else
      match getTx item.tx_hash with
      | none => .error .txLookupFailed
      | some tx =>
        let fee := transferFee getTx tx
        let outgoing := isOutgoingTx getTx self tx.ins
        getTransfersGo getTx self dirF limit rest
          (processOuts self item.tx_hash item.height fee outgoing dirF limit
            tx.outs.enum acc)

/-- `getTransfers` (lines 395-495): drop the first `skip` history entries and
run the loop (defaults in the source: `direction = 'all'`, `limit = 10`,
`skip = 0`). -/
def getTransfers (chain : Chain) (self : Addr) (dirF : DirFilter)
    (limit skip : Nat) : Except Err (List Transfer) :=
  getTransfersGo chain.getTx self dirF limit (chain.history.drop skip) []

/-!
## Message signing (`sign` / `verify`)

`sign` hashes the UTF-8 message with SHA-256 and delegates to
`this._account.sign` (ECDSA under the child key), hex-encoding the returned
signature bytes; `verify` re-hashes, hex-decodes the signature and delegates
to `this._account.verify`.  The secp256k1 primitives and SHA-256 live in
external libraries (`bip32`, `@bitcoinerlab/secp256k1`, bitcoinjs `crypto`),
so the model keeps them abstract and the round-trip theorem is conditional on
their contract; the hex transport and the consistent hashing on both sides
are the repository's code and are proved outright.
-/

/-- The external signing primitives behind `this._account`: `sign` maps a
message hash to signature bytes, `verify` checks signature bytes against a
hash. -/
structure EccOps where
  sign : List Nat → List Nat
  verify : List Nat → List Nat → Bool

/-- The sixteen lowercase hex digit characters, indexed by value. -/
def hexDigits : List Char := "0123456789abcdef".data

/-- One byte to two hex characters, as `Buffer.toString('hex')`. -/
def byteToHex (b : Nat) : List Char :=
  [hexDigits.getD (b / 16) '0', hexDigits.getD (b % 16) '0']

/-- `Buffer.toString('hex')` over a byte list. -/
def hexEncode (bs : List Nat) : List Char := bs.flatMap byteToHex

/-- The value of one hex digit character (0 for a non-digit, as a stand-in;
only digit inputs arise below). -/
def hexDigitVal (c : Char) : Nat :=
  (hexDigits.indexOf c)

/-- `Buffer.from(hex, 'hex')`: consume hex characters two at a time. -/
def hexDecode : List Char → List Nat
  | c1 :: c2 :: rest => (16 * hexDigitVal c1 + hexDigitVal c2) :: hexDecode rest
  | _ => []

/-- `sign` (lines 287-290): hash the message, sign, hex-encode. -/
def walletSign (prim : EccOps) (sha256 : String → List Nat) (message : String) :
    List Char :=
  hexEncode (prim.sign (sha256 message))

/-- `verify` (lines 299-303): hash the message, hex-decode the signature,
verify. -/
def walletVerify (prim : EccOps) (sha256 : String → List Nat) (message : String)
    (signature : List Char) : Bool :=
  prim.verify (sha256 message) (hexDecode signature)

/-!
## Account lifecycle (`dispose`)
-/

/-- The account's mutable key state: the private-key buffer held by the BIP32
node, and whether `this._account` has been set to `undefined` by `dispose`. -/
structure AccountState where
  privKey : List Nat
  accountCleared : Bool
deriving DecidableEq

/-- `dispose` (lines 509-515): `sodium_memzero(this._account.privateKey)`
overwrites the buffer with zeros, then `this._account = undefined` (the
Electrum disconnect is connection state, not key state). -/
def dispose (a : AccountState) : AccountState :=
  ⟨List.replicate a.privKey.length 0, true⟩

/-- `sign` after the account check: reading `this._account.sign` when
`this._account` is `undefined` throws a `TypeError`; otherwise the signature
is produced as in `walletSign`. -/
def signMessage (a : AccountState) (prim : EccOps)
    (sha256 : String → List Nat) (message : String) : Except Err (List Char) :=
  if a.accountCleared then .error .typeError
  else .ok (walletSign prim sha256 message)

/-- A fixed-width (3 bytes per character) injective encoding of a string's
characters, used to instantiate the abstract hash in witnesses: every Unicode
code point is below `0x110000`, so three base-256 digits suffice. -/
def char3 (c : Char) : List Nat :=
  [c.toNat / 65536, c.toNat / 256 % 256, c.toNat % 256]

/-- A concrete injective "hash" for witnesses. -/
def toySha (s : String) : List Nat := s.data.flatMap char3

/-- A concrete signature scheme for witnesses: the signature is the hash and
verification compares them. -/
def toyEcc : EccOps := ⟨fun h => h, fun h s => decide (s = h)⟩

/-!
## Concrete oracles used by counterexamples and witnesses
-/

/-- A gateway with one 5-sat unspent output (C7 counterexample). -/
def gwC7 : Gateway :=
  ⟨[⟨1, 0, 5, 0⟩], fun id => if id = 1 then some ⟨[], [⟨5, []⟩]⟩ else none, 1⟩

/-- A gateway with one 1000-sat unspent output (C1 and C3
counterexamples). -/
def gwSmall : Gateway :=
  ⟨[⟨1, 0, 1000, 0⟩], fun id => if id = 1 then some ⟨[], [⟨1000, []⟩]⟩ else none, 1⟩

/-- A gateway with one 10000-sat unspent output (C1 witness). -/
def gwBig : Gateway :=
  ⟨[⟨1, 0, 10000, 0⟩], fun id => if id = 1 then some ⟨[], [⟨10000, []⟩]⟩ else none, 1⟩

/-- The account's own x-only program in the concrete chains. -/
def selfKey : Addr := List.replicate 32 2

/-- A counterparty x-only program. -/
def otherKey : Addr := List.replicate 32 3

/-- C4's chain: transaction 1 pays the account twice (two records),
transaction 2 pays it once; both have no inputs, so neither is outgoing. -/
def chainC4 : Chain :=
  ⟨[⟨1, 10⟩, ⟨2, 11⟩],
    fun id =>
      if id = 1 then some ⟨[], [⟨100, p2trScript selfKey⟩, ⟨200, p2trScript selfKey⟩]⟩
      else if id = 2 then some ⟨[], [⟨300, p2trScript selfKey⟩]⟩
      else none⟩

/-- C5's chain: transaction 1 has two inputs — one whose previous output
(1000 sats, paying a third party) resolves, and one whose previous
transaction lookup fails — and a single 400-sat output to the account. -/
def chainC5 : Chain :=
  ⟨[⟨1, 5⟩],
    fun id =>
      if id = 1 then some ⟨[⟨9, 0⟩, ⟨8, 0⟩], [⟨400, p2trScript selfKey⟩]⟩
      else if id = 9 then some ⟨[], [⟨1000, p2trScript otherKey⟩]⟩
      else none⟩

/-- C6's witness chain: transaction 1 spends a previous output of the account
(outgoing) and pays 100 sats to a third party. -/
def chainC6 : Chain :=
  ⟨[⟨1, 7⟩],
    fun id =>
      if id = 1 then some ⟨[⟨9, 0⟩], [⟨100, p2trScript otherKey⟩]⟩
      else if id = 9 then some ⟨[], [⟨500, p2trScript selfKey⟩]⟩
      else none⟩

/-!
## Theorems
-/

/-- C2: for a build with total input `I`, amount `a` and trial fee `f`,
letting `change = I - a - f`: if `change > 546` the builder adds exactly one
extra output paying the account's own address with value `change`; if
`0 ≤ change ≤ 546` no change output is added and the input/output difference
is `f + change` (the leftover becomes additional fee); if `change < 0` the
build fails with `InsufficientBalance`. -/
theorem change_policy (selfAddr recipient : String) (I a f : Int) :
    (DUST_LIMIT < I - a - f →
      createPsbt selfAddr recipient I a f false =
        .ok [(recipient, a), (selfAddr, I - a - f)]) ∧
    (0 ≤ I - a - f → I - a - f ≤ DUST_LIMIT →
      createPsbt selfAddr recipient I a f false = .ok [(recipient, a)] ∧
        I - outTotal [(recipient, a)] = f + (I - a - f)) ∧
    (I - a - f < 0 →
      createPsbt selfAddr recipient I a f false = .error .insufficientBalance) := by
  refine ⟨fun h => ?_, fun h0 h1 => ?_, fun h => ?_⟩
  · simp [createPsbt, h]
  · constructor
    · simp [createPsbt, not_lt.mpr h1, not_lt.mpr h0]
    · simp only [outTotal, List.foldl]
      ring
  · have : ¬ DUST_LIMIT < I - a - f := by
      unfold DUST_LIMIT at *
      omega
    simp [createPsbt, this, h]

/-- C2 witness: a concrete build taking the change branch, via
`change_policy`. -/
theorem change_policy_witness :
    createPsbt "self" "rcpt" 2000 600 141 false =
      .ok [("rcpt", 600), ("self", 1259)] := by
  have h := (change_policy "self" "rcpt" 2000 600 141).1 (by decide)
  simpa using h

/-- C10: `createOpReturnScript` throws for data longer than 80 bytes, and for
data of length ≤ 75 returns exactly `0x6a`, one length byte equal to the data
length, then the data verbatim. -/
theorem op_return_script_format (data : List Nat) :
    (80 < data.length → createOpReturnScript data = .error .opReturnTooLong) ∧
    (data.length ≤ 75 →
      createOpReturnScript data = .ok (106 :: data.length :: data)) := by
  constructor
  · intro h
    simp [createOpReturnScript, h]
  · intro h
    simp [createOpReturnScript, h]
    omega

/-- C10 witness: the 3-byte payload `[1, 2, 3]`, via
`op_return_script_format`. -/
theorem op_return_script_format_witness :
    createOpReturnScript [1, 2, 3] = .ok [106, 3, 1, 2, 3] := by
  have h := (op_return_script_format [1, 2, 3]).2 (by decide)
  simpa using h

/-- A target that is already met selects the empty prefix. -/
lemma claimedUtxoSelection_nonpos (amount : Int) (l : List UtxoRef)
    (h : amount ≤ 0) : claimedUtxoSelection amount l = [] := by
  cases l with
  | nil => rfl
  | cons u rest => simp [claimedUtxoSelection, h]

/-- The walk never reports `noUnspent`; that error belongs to the empty-list
check alone. -/
lemma getUtxosGo_ne_noUnspent (getTx : Nat → Option Tx) (amount : Int) :
    ∀ (l : List UtxoRef) (c : Int) (acc : List CollectedUtxo) (tr : List Rpc),
      (getUtxosGo getTx amount l c acc tr).1 ≠ .error .noUnspent := by
  intro l
  induction l with
  | nil => intro c acc tr; simp [getUtxosGo]
  | cons u rest ih =>
    intro c acc tr
    cases hg : getTx u.tx_hash with
    | none => simp [getUtxosGo, hg]
    | some tx =>
      cases ho : tx.outs[u.tx_pos]? with
      | none => simp [getUtxosGo, hg, ho]
      | some vout =>
        by_cases hif : amount ≤ c + u.value
        · simp [getUtxosGo, hg, ho, hif]
        · simpa [getUtxosGo, hg, ho, hif] using ih (c + u.value) _ _

/-- The walk only appends to the RPC trace it is given. -/
lemma getUtxosGo_trace (getTx : Nat → Option Tx) (amount : Int) :
    ∀ (l : List UtxoRef) (c : Int) (acc : List CollectedUtxo) (tr : List Rpc),
      ∃ ext, (getUtxosGo getTx amount l c acc tr).2 = tr ++ ext := by
  intro l
  induction l with
  | nil => intro c acc tr; exact ⟨[], by simp [getUtxosGo]⟩
  | cons u rest ih =>
    intro c acc tr
    cases hg : getTx u.tx_hash with
    | none => exact ⟨[.getTx u.tx_hash], by simp [getUtxosGo, hg]⟩
    | some tx =>
      cases ho : tx.outs[u.tx_pos]? with
      | none => exact ⟨[.getTx u.tx_hash], by simp [getUtxosGo, hg, ho]⟩
      | some vout =>
        by_cases hif : amount ≤ c + u.value
        · exact ⟨[.getTx u.tx_hash], by simp [getUtxosGo, hg, ho, hif]⟩
        · obtain ⟨ext, hext⟩ := ih (c + u.value)
            (acc ++ [⟨u.tx_hash, u.tx_pos, u.value, u.height, vout.value, vout.script⟩])
            (tr ++ [.getTx u.tx_hash])
          refine ⟨.getTx u.tx_hash :: ext, ?_⟩
          simp [getUtxosGo, hg, ho, hif, hext]

/-- When every entry resolves, the walk succeeds. -/
lemma getUtxosGo_ok_resolves (getTx : Nat → Option Tx) (amount : Int) :
    ∀ (l : List UtxoRef) (c : Int) (acc : List CollectedUtxo) (tr : List Rpc),
      (∀ u ∈ l, resolvesRef getTx u = true) →
      ∃ us, (getUtxosGo getTx amount l c acc tr).1 = .ok us := by
  intro l
  induction l with
  | nil => intro c acc tr _; exact ⟨acc, by simp [getUtxosGo]⟩
  | cons u rest ih =>
    intro c acc tr hres
    have hu := hres u (by simp)
    cases hg : getTx u.tx_hash with
    | none => simp [resolvesRef, hg] at hu
    | some tx =>
      cases ho : tx.outs[u.tx_pos]? with
      | none => simp [resolvesRef, hg, ho] at hu
      | some vout =>
        by_cases hif : amount ≤ c + u.value
        · exact ⟨acc ++
              [⟨u.tx_hash, u.tx_pos, u.value, u.height, vout.value, vout.script⟩],
            by simp [getUtxosGo, hg, ho, hif]⟩
        · obtain ⟨us, hok⟩ := ih (c + u.value)
            (acc ++ [⟨u.tx_hash, u.tx_pos, u.value, u.height, vout.value, vout.script⟩])
            (tr ++ [.getTx u.tx_hash]) (fun v hv => hres v (by simp [hv]))
          exact ⟨us, by simp [getUtxosGo, hg, ho, hif, hok]⟩

/-- For a positive remaining target, the walk returns exactly the claimed
first covering prefix, combined with the previous-output data. -/
lemma getUtxosGo_eq_claimed (getTx : Nat → Option Tx) (amount : Int) :
    ∀ (l : List UtxoRef) (c : Int) (acc : List CollectedUtxo) (tr : List Rpc),
      (∀ u ∈ l, resolvesRef getTx u = true) → 1 ≤ amount - c →
      (getUtxosGo getTx amount l c acc tr).1 =
        .ok (acc ++
          (claimedUtxoSelection (amount - c) l).map (collectUtxo getTx)) := by
  intro l
  induction l with
  | nil => intro c acc tr _ _; simp [getUtxosGo, claimedUtxoSelection]
  | cons u rest ih =>
    intro c acc tr hres hpos
    have hu := hres u (by simp)
    cases hg : getTx u.tx_hash with
    | none => simp [resolvesRef, hg] at hu
    | some tx =>
      cases ho : tx.outs[u.tx_pos]? with
      | none => simp [resolvesRef, hg, ho] at hu
      | some vout =>
        have hcollect : collectUtxo getTx u =
            ⟨u.tx_hash, u.tx_pos, u.value, u.height, vout.value, vout.script⟩ := by
          simp [collectUtxo, hg, ho]
        have hsel : claimedUtxoSelection (amount - c) (u :: rest) =
            u :: claimedUtxoSelection (amount - c - u.value) rest := by
          simp only [claimedUtxoSelection]
          rw [if_neg (by omega)]
        by_cases hif : amount ≤ c + u.value
        · have hnil : claimedUtxoSelection (amount - c - u.value) rest = [] :=
            claimedUtxoSelection_nonpos _ _ (by omega)
          simp [getUtxosGo, hg, ho, hif, hsel, hnil, hcollect]
        · have hrec := ih (c + u.value)
            (acc ++ [⟨u.tx_hash, u.tx_pos, u.value, u.height, vout.value, vout.script⟩])
            (tr ++ [.getTx u.tx_hash]) (fun v hv => hres v (by simp [hv])) (by omega)
          have harith : amount - (c + u.value) = amount - c - u.value := by ring
          rw [harith] at hrec
          simp [getUtxosGo, hg, ho, hif, hsel, hcollect, hrec]

/-- C7: corrected form.  `_getUtxos` fails with `NoUnspent` exactly when the
unspent list is empty; and for every target amount of at least 1 sat, when
the list is non-empty and every entry's previous transaction resolves, it
returns the first prefix whose accumulated value reaches the target (the
whole list when the total stays below it), each entry carrying the exact
`script_pubkey` bytes copied from its previous transaction.  (As stated, the
claim quantified over *every* amount; at a target of 0 the code still
collects the first UTXO while the first covering prefix is empty - see
`utxo_planner_counterexample`.) -/
theorem utxo_planner_corrected (gw : Gateway) (amount : Int) :
    ((getUtxos gw amount).1 = .error .noUnspent ↔ gw.unspent = []) ∧
    (gw.unspent ≠ [] → 1 ≤ amount →
      (∀ u ∈ gw.unspent, resolvesRef gw.getTx u = true) →
      (getUtxos gw amount).1 =
        .ok ((claimedUtxoSelection amount gw.unspent).map
          (collectUtxo gw.getTx))) := by
  obtain ⟨unspent, getTx, feeRate⟩ := gw
  constructor
  · cases unspent with
    | nil => simp [getUtxos]
    | cons u rest =>
      constructor
      · intro h
        rw [show getUtxos ⟨u :: rest, getTx, feeRate⟩ amount =
            getUtxosGo getTx amount (u :: rest) 0 [] [.getUnspent] from by
          simp [getUtxos]] at h
        exact absurd h (getUtxosGo_ne_noUnspent _ _ _ _ _ _)
      · intro h
        exact absurd h (by simp)
  · intro hne h1 hres
    cases unspent with
    | nil => exact absurd rfl hne
    | cons u rest =>
      rw [show getUtxos ⟨u :: rest, getTx, feeRate⟩ amount =
          getUtxosGo getTx amount (u :: rest) 0 [] [.getUnspent] from by
        simp [getUtxos]]
      have := getUtxosGo_eq_claimed getTx amount (u :: rest) 0 [] [.getUnspent]
        (by simpa using hres) (by omega)
      simpa using this

/-- C7 counterexample: at target amount 0 with one 5-sat unspent output, the
code still collects that output (the loop checks sufficiency only after
pushing), while the first covering prefix of the claim is empty. -/
theorem utxo_planner_counterexample :
    (getUtxos gwC7 0).1 = .ok [⟨1, 0, 5, 0, 5, []⟩] ∧
    (claimedUtxoSelection 0 gwC7.unspent).map (collectUtxo gwC7.getTx) = [] ∧
    ([⟨1, 0, 5, 0, 5, []⟩] : List CollectedUtxo) ≠ [] := by
  refine ⟨by decide, by decide, by decide⟩

/-- C7 witness: for a 3-sat target against the 5-sat unspent list,
`utxo_planner_corrected` yields the one-element covering prefix. -/
theorem utxo_planner_corrected_witness :
    (getUtxos gwC7 3).1 = .ok [⟨1, 0, 5, 0, 5, []⟩] := by
  have h := (utxo_planner_corrected gwC7 3).2 (by decide) (by decide)
    (by decide)
  simpa using h

/-- The fee rounding of the model agrees with the ceiling of the exact
rational product, justifying `bnCeilMulNat` against
`BigNumber.multipliedBy(...).integerValue(ROUND_CEIL)`. -/
lemma bnCeilMulNat_eq_ceil (q : ℚ) (n : Nat) :
    bnCeilMulNat q n = ⌈q * (n : ℚ)⌉ := by
  have hceil : ⌈q * (n : ℚ)⌉ = -⌊-(q * (n : ℚ))⌋ := by
    rw [Int.floor_neg, neg_neg]
  have hden : ((q.den : Nat) : ℚ) ≠ 0 := by
    exact_mod_cast q.den_ne_zero
  have h : -(q * (n : ℚ)) = ((-(q.num * (n : Int)) : Int) : ℚ) / ((q.den : Nat) : ℚ) := by
    rw [eq_div_iff hden]
    push_cast
    nth_rewrite 1 [← Rat.num_div_den q]
    field_simp
  rw [hceil, h, Rat.floor_intCast_div_natCast, bnCeilMulNat]

/-- A successful `createPsbt` pass has non-negative change and sums its
outputs to the amount plus the change output, when one was added. -/
lemma createPsbt_ok_outTotal (s r : String) (I a f : Int)
    (outs : List (String × Int)) (h : createPsbt s r I a f false = .ok outs) :
    0 ≤ I - a - f ∧
      outTotal outs = a + (if DUST_LIMIT < I - a - f then I - a - f else 0) := by
  simp only [createPsbt] at h
  by_cases h1 : DUST_LIMIT < I - a - f
  · rw [if_pos h1] at h
    simp at h
    subst h
    refine ⟨by unfold DUST_LIMIT at h1; omega, ?_⟩
    rw [if_pos h1]
    simp only [outTotal, List.foldl]
    ring
  · rw [if_neg h1] at h
    by_cases h2 : I - a - f < 0
    · rw [if_pos h2] at h
      exact absurd h (by simp)
    · rw [if_neg h2] at h
      simp at h
      subst h
      refine ⟨by omega, ?_⟩
      rw [if_neg h1]
      simp only [outTotal, List.foldl]
      ring

/-- A successful `_getRawTransaction` keeps the selected UTXO set as inputs,
reports the two-pass estimated fee, and its outputs come from the second
`createPsbt` pass at that fee. -/
lemma getRawTransaction_ok (s r : String) (utxoSet : List CollectedUtxo)
    (amount : Int) (feeRate : ℚ) (vsize : Nat) (t : RawTx)
    (h : getRawTransaction s r utxoSet amount feeRate vsize false = .ok t) :
    t.ins = utxoSet ∧
      t.fee = max (bnCeilMulNat feeRate vsize) MIN_FEE_FLOOR ∧
      createPsbt s r (utxoTotal utxoSet) amount t.fee false = .ok t.outs := by
  simp only [getRawTransaction] at h
  by_cases hd : amount ≤ DUST_LIMIT
  · rw [if_pos hd] at h
    exact absurd h (by simp)
  · rw [if_neg hd] at h
    cases h0 : createPsbt s r (utxoTotal utxoSet) amount 0 false with
    | error e => rw [h0] at h; exact absurd h (by simp)
    | ok outs0 =>
      rw [h0] at h
      cases h1 : createPsbt s r (utxoTotal utxoSet) amount
          (max (bnCeilMulNat feeRate vsize) MIN_FEE_FLOOR) false with
      | error e => rw [h1] at h; exact absurd h (by simp)
      | ok outs1 =>
        rw [h1] at h
        obtain ⟨tins, touts, tfee⟩ := t
        simp [RawTx.mk.injEq] at h
        obtain ⟨hi, ho, hf⟩ := h
        subst hi; subst ho; subst hf
        exact ⟨rfl, rfl, h1⟩

/-- C1: corrected form.  For every transaction successfully built by the send
pipeline (as used by `sendTransaction` and `quoteSendTransaction`), the
reported fee is at least `MIN_FEE_FLOOR = 141`, and the difference
`Σ inputs − Σ outputs` is at least the reported fee but may exceed it by up
to `DUST_LIMIT = 546` sats: when the final-pass change lies in `(0, 546]` it
is silently absorbed into the *actual* fee while the *reported* fee stays the
estimate, so the claimed equality fails — see
`fee_accounting_counterexample`. -/
theorem fee_accounting_corrected (gw : Gateway) (selfAddr recipient : String)
    (amount : Int) (vsize : Nat) (t : RawTx) (tr : List Rpc)
    (h : getTransaction gw selfAddr recipient amount none vsize false =
      (.ok t, tr)) :
    MIN_FEE_FLOOR ≤ t.fee ∧ t.fee ≤ utxoTotal t.ins - outTotal t.outs ∧
      utxoTotal t.ins - outTotal t.outs - t.fee ≤ DUST_LIMIT := by
  simp only [getTransaction] at h
  rcases hu : getUtxos gw amount with ⟨ures, tr1⟩
  rw [hu] at h
  cases ures with
  | error e => simp at h
  | ok utxoSet =>
    simp only [Prod.mk.injEq] at h
    obtain ⟨h1, _⟩ := h
    obtain ⟨hins, hfee, hpsbt⟩ := getRawTransaction_ok _ _ _ _ _ _ _ h1
    rw [← hins] at hpsbt
    obtain ⟨hch, hout⟩ := createPsbt_ok_outTotal _ _ _ _ _ _ hpsbt
    have hfloor : MIN_FEE_FLOOR ≤ t.fee := hfee ▸ le_max_right _ _
    refine ⟨hfloor, ?_, ?_⟩ <;>
      · by_cases hc : DUST_LIMIT < utxoTotal t.ins - amount - t.fee
        · rw [if_pos hc] at hout
          unfold DUST_LIMIT MIN_FEE_FLOOR at *
          omega
        · rw [if_neg hc] at hout
          unfold DUST_LIMIT MIN_FEE_FLOOR at *
          omega

/-- C1 counterexample: one 1000-sat input, amount 600, fee rate 1 sat/vB,
dummy vsize 100.  The reported fee is 141 but the serialized transaction pays
`1000 − 600 = 400` sats of fee: the 259-sat residual change was absorbed
without being reported. -/
theorem fee_accounting_counterexample :
    getTransaction gwSmall "self" "rcpt" 600 none 100 false =
      (.ok ⟨[⟨1, 0, 1000, 0, 1000, []⟩], [("rcpt", 600)], 141⟩,
        [.getUnspent, .getTx 1, .feeEstimate]) ∧
    utxoTotal [⟨1, 0, 1000, 0, 1000, []⟩] - outTotal [("rcpt", 600)] = 400 ∧
    (400 : Int) ≠ 141 := by
  exact ⟨by decide, by decide, by decide⟩

/-- C1 witness: one 10000-sat input, amount 600, fee rate 1 sat/vB, vsize
100, via `fee_accounting_corrected`. -/
theorem fee_accounting_corrected_witness :
    MIN_FEE_FLOOR ≤ (141 : Int) ∧
      (141 : Int) ≤ utxoTotal [⟨1, 0, 10000, 0, 10000, []⟩] -
        outTotal [("rcpt", 600), ("self", 9259)] ∧
      utxoTotal [⟨1, 0, 10000, 0, 10000, []⟩] -
        outTotal [("rcpt", 600), ("self", 9259)] - 141 ≤ DUST_LIMIT :=
  fee_accounting_corrected gwBig "self" "rcpt" 600 100
    ⟨[⟨1, 0, 10000, 0, 10000, []⟩], [("rcpt", 600), ("self", 9259)], 141⟩
    [.getUnspent, .getTx 1, .feeEstimate] (by decide)

/-- C3: corrected form.  A send or quote with amount ≤ 546 does fail with
`AmountBelowDust` (provided the unspent list is non-empty and resolvable, so
the earlier stages succeed), but the failure is surfaced only *after* the
unspent-list fetch and the fee-estimate RPC: the dust check sits at the top
of `_getRawTransaction`, which `_getTransaction` calls last.  The claim's
"before any I/O" part is refuted by `dust_rejection_counterexample`. -/
theorem dust_rejection_corrected (gw : Gateway) (selfAddr recipient : String)
    (amount : Int) (vsize : Nat)
    (hdust : amount ≤ DUST_LIMIT) (hne : gw.unspent ≠ [])
    (hres : ∀ u ∈ gw.unspent, resolvesRef gw.getTx u = true) :
    (quoteSendTransaction gw selfAddr recipient amount vsize false).1 =
      .error .amountBelowDust ∧
    (quoteSendTransaction gw selfAddr recipient amount vsize false).2.head? =
      some .getUnspent ∧
    Rpc.feeEstimate ∈
      (quoteSendTransaction gw selfAddr recipient amount vsize false).2 := by
  obtain ⟨unspent, getTx, feeRate⟩ := gw
  cases unspent with
  | nil => exact absurd rfl hne
  | cons u rest =>
    obtain ⟨us, hok⟩ := getUtxosGo_ok_resolves getTx amount (u :: rest) 0 []
      [.getUnspent] (by simpa using hres)
    obtain ⟨ext, htr⟩ := getUtxosGo_trace getTx amount (u :: rest) 0 []
      [.getUnspent]
    rcases hp : getUtxosGo getTx amount (u :: rest) 0 [] [.getUnspent]
      with ⟨res, tr⟩
    rw [hp] at hok htr
    simp at hok htr
    subst hok; subst htr
    have hgu : getUtxos ⟨u :: rest, getTx, feeRate⟩ amount =
        (.ok us, .getUnspent :: ext) := by
      simpa [getUtxos] using hp
    have hraw : getRawTransaction selfAddr recipient us amount
        (if feeRate < 1 then 1 else feeRate) vsize false =
        .error .amountBelowDust := by
      simp [getRawTransaction, hdust]
    simp [quoteSendTransaction, getTransaction, hgu, hraw]

/-- C3 counterexample: amount 500 ≤ 546 against a gateway with one resolvable
1000-sat unspent output.  The failure is `AmountBelowDust`, but the RPC trace
at that point already contains the unspent fetch, a previous-transaction
fetch and the fee estimate — not the empty trace the claim requires. -/
theorem dust_rejection_counterexample :
    quoteSendTransaction gwSmall "self" "rcpt" 500 100 false =
      (.error .amountBelowDust, [.getUnspent, .getTx 1, .feeEstimate]) ∧
    ([.getUnspent, .getTx 1, .feeEstimate] : List Rpc) ≠ [] := by
  exact ⟨by decide, by decide⟩

/-- C3 witness: the corrected statement applied to the same concrete
gateway. -/
theorem dust_rejection_corrected_witness :
    (quoteSendTransaction gwSmall "w" "r" 500 100 false).1 =
      .error .amountBelowDust ∧
    (quoteSendTransaction gwSmall "w" "r" 500 100 false).2.head? =
      some .getUnspent ∧
    Rpc.feeEstimate ∈ (quoteSendTransaction gwSmall "w" "r" 500 100 false).2 :=
  dust_rejection_corrected gwSmall "w" "r" 500 100 (by decide) (by decide)
    (by decide)

/-- `isOutgoingTx` is true exactly when some input spends a previous output
whose script decodes to the account's own address. -/
lemma isOutgoingTx_eq_true_iff (getTx : Nat → Option Tx) (self : Addr)
    (ins : List TxIn) :
    isOutgoingTx getTx self ins = true ↔
      ∃ i ∈ ins, inputSpendsSelf getTx self i = true := by
  induction ins with
  | nil => simp [isOutgoingTx]
  | cons i rest ih => simp [isOutgoingTx, ih]

/-- Every record produced by the inner output loop, beyond the accumulator it
started from, carries the transaction's id and fee, has direction `outgoing`
exactly when the transaction's outgoing flag is set, and, in an outgoing
transaction, never pays the account's own address. -/
lemma mem_processOuts (self : Addr) (txid : Nat) (height : Int)
    (fee : Option Int) (outgoing : Bool) (dirF : DirFilter) (limit : Nat) :
    ∀ (outs : List (Nat × TxOut)) (acc : List Transfer) (r : Transfer),
      r ∈ processOuts self txid height fee outgoing dirF limit outs acc →
      r ∈ acc ∨ (r.txid = txid ∧ r.fee = fee ∧
        (r.direction = .outgoing ↔ outgoing = true) ∧
        (outgoing = true → r.recipient ≠ self)) := by
  intro outs
  induction outs with
  | nil => intro acc r h; exact Or.inl h
  | cons p rest ih =>
    intro acc r h
    obtain ⟨index, out⟩ := p
    cases hd : decodeScriptAddress out.script with
    | none =>
      simp only [processOuts, hd] at h
      exact ih acc r h
    | some addr =>
      simp only [processOuts, hd] at h
      by_cases h1 : addr = self
      · rw [if_pos h1] at h
        cases outgoing with
        | true =>
          simp only [if_true] at h
          exact ih acc r h
        | false =>
          simp only [Bool.false_eq_true, if_false] at h
          by_cases hf : matchesFilter dirF .incoming = true
          · rw [if_pos hf] at h
            by_cases hl : limit ≤ acc.length
            · rw [if_pos hl] at h
              exact Or.inl h
            · rw [if_neg hl] at h
              rcases ih _ r h with hmem | hP
              · rcases List.mem_append.mp hmem with hacc | hrec
                · exact Or.inl hacc
                · right
                  simp only [List.mem_singleton] at hrec
                  subst hrec
                  exact ⟨rfl, rfl, by simp, by simp⟩
              · exact Or.inr hP
          · rw [if_neg hf] at h
            exact ih acc r h
      · rw [if_neg h1] at h
        cases outgoing with
        | false =>
          simp only [Bool.false_eq_true, if_false] at h
          exact ih acc r h
        | true =>
          simp only [if_true] at h
          by_cases hf : matchesFilter dirF .outgoing = true
          · rw [if_pos hf] at h
            by_cases hl : limit ≤ acc.length
            · rw [if_pos hl] at h
              exact Or.inl h
            · rw [if_neg hl] at h
              rcases ih _ r h with hmem | hP
              · rcases List.mem_append.mp hmem with hacc | hrec
                · exact Or.inl hacc
                · right
                  simp only [List.mem_singleton] at hrec
                  subst hrec
                  exact ⟨rfl, rfl, by simp, fun _ => h1⟩
              · exact Or.inr hP
          · rw [if_neg hf] at h
            exact ih acc r h

/-- Every record returned by the history loop, beyond the accumulator it
started from, comes from a transaction the chain resolves at the record's
`txid`, and carries that transaction's fee, direction flag and change
exclusion. -/
lemma mem_getTransfersGo (getTx : Nat → Option Tx) (self : Addr)
    (dirF : DirFilter) (limit : Nat) :
    ∀ (hist : List HistoryItem) (acc : List Transfer) (ts : List Transfer),
      getTransfersGo getTx self dirF limit hist acc = .ok ts →
      ∀ r ∈ ts, r ∈ acc ∨ ∃ tx, getTx r.txid = some tx ∧
        r.fee = transferFee getTx tx ∧
        (r.direction = .outgoing ↔ isOutgoingTx getTx self tx.ins = true) ∧
        (isOutgoingTx getTx self tx.ins = true → r.recipient ≠ self) := by
  intro hist
  induction hist with
  | nil =>
    intro acc ts h r hr
    simp only [getTransfersGo] at h
    simp only [Except.ok.injEq] at h
    subst h
    exact Or.inl hr
  | cons item rest ih =>
    intro acc ts h r hr
    simp only [getTransfersGo] at h
    by_cases hlim : limit ≤ acc.length
    · rw [if_pos hlim] at h
      simp only [Except.ok.injEq] at h
      subst h
      exact Or.inl hr
    · rw [if_neg hlim] at h
      cases hg : getTx item.tx_hash with
      | none => rw [hg] at h; exact absurd h (by simp)
      | some tx =>
        rw [hg] at h
        simp only at h
        rcases ih _ _ h r hr with hmem | hP
        · rcases mem_processOuts self item.tx_hash item.height
              (transferFee getTx tx) (isOutgoingTx getTx self tx.ins) dirF limit
              tx.outs.enum acc r hmem with hacc | ⟨hid, hfee, hdir, hch⟩
          · exact Or.inl hacc
          · exact Or.inr ⟨tx, by rw [hid]; exact hg, hfee, hdir, hch⟩
        · exact Or.inr hP

/-- C6: every transfer record's transaction resolves at its `txid`; an
`outgoing` record means some input of that transaction spends a previous
output whose script decodes to the account's own address; an `incoming`
record means no input does; and inside an outgoing transaction no record
pays the account's own address (such outputs are change and are skipped). -/
theorem direction_invariant (chain : Chain) (self : Addr) (dirF : DirFilter)
    (limit skip : Nat) (ts : List Transfer)
    (h : getTransfers chain self dirF limit skip = .ok ts) :
    ∀ r ∈ ts, ∃ tx, chain.getTx r.txid = some tx ∧
      (r.direction = .outgoing →
        ∃ i ∈ tx.ins, inputSpendsSelf chain.getTx self i = true) ∧
      (r.direction = .incoming →
        ∀ i ∈ tx.ins, inputSpendsSelf chain.getTx self i = false) ∧
      (isOutgoingTx chain.getTx self tx.ins = true → r.recipient ≠ self) := by
  intro r hr
  rcases mem_getTransfersGo chain.getTx self dirF limit
      (chain.history.drop skip) [] ts h r hr with hacc | ⟨tx, hg, _, hdir, hch⟩
  · simp at hacc
  · refine ⟨tx, hg, ?_, ?_, hch⟩
    · intro hout
      exact (isOutgoingTx_eq_true_iff _ _ _).mp (hdir.mp hout)
    · intro hinc i hi
      have hfalse : isOutgoingTx chain.getTx self tx.ins = false := by
        cases hiso : isOutgoingTx chain.getTx self tx.ins with
        | false => rfl
        | true =>
          have := hdir.mpr hiso
          rw [hinc] at this
          exact absurd this (by simp)
      cases hspend : inputSpendsSelf chain.getTx self i with
      | false => rfl
      | true =>
        have : isOutgoingTx chain.getTx self tx.ins = true :=
          (isOutgoingTx_eq_true_iff _ _ _).mpr ⟨i, hi, hspend⟩
        rw [hfalse] at this
        exact absurd this (by simp)

/-- C6 witness: a chain with one outgoing transaction paying a third party,
via `direction_invariant`. -/
theorem direction_invariant_witness :
    ∃ tx, chainC6.getTx 1 = some tx ∧
      ((⟨1, 7, 100, 0, .outgoing, otherKey, some 400, selfKey⟩ : Transfer).direction
          = .outgoing →
        ∃ i ∈ tx.ins, inputSpendsSelf chainC6.getTx selfKey i = true) ∧
      ((⟨1, 7, 100, 0, .outgoing, otherKey, some 400, selfKey⟩ : Transfer).direction
          = .incoming →
        ∀ i ∈ tx.ins, inputSpendsSelf chainC6.getTx selfKey i = false) ∧
      (isOutgoingTx chainC6.getTx selfKey tx.ins = true →
        (⟨1, 7, 100, 0, .outgoing, otherKey, some 400, selfKey⟩ : Transfer).recipient
          ≠ selfKey) :=
  direction_invariant chainC6 selfKey .all 10 0
    [⟨1, 7, 100, 0, .outgoing, otherKey, some 400, selfKey⟩] (by decide)
    ⟨1, 7, 100, 0, .outgoing, otherKey, some 400, selfKey⟩ (by decide)

/-- C5: corrected form.  Every record's fee field equals the sum of the
*resolvable* previous-output values minus the transaction's own output total
whenever that resolvable sum is positive, and is `null` when the resolvable
sum is zero — not, as claimed, `null` whenever some previous output fails to
resolve (see `transfer_fee_field_counterexample`). -/
theorem transfer_fee_field_corrected (chain : Chain) (self : Addr)
    (dirF : DirFilter) (limit skip : Nat) (ts : List Transfer)
    (h : getTransfers chain self dirF limit skip = .ok ts) :
    ∀ r ∈ ts, ∃ tx, chain.getTx r.txid = some tx ∧
      r.fee = (if 0 < getInputValue chain.getTx tx.ins
        then some (getInputValue chain.getTx tx.ins - txOutTotal tx)
        else none) := by
  intro r hr
  rcases mem_getTransfersGo chain.getTx self dirF limit
      (chain.history.drop skip) [] ts h r hr with hacc | ⟨tx, hg, hfee, _, _⟩
  · simp at hacc
  · exact ⟨tx, hg, by rw [hfee]; rfl⟩

/-- C5 counterexample: transaction 1 has two inputs; the previous transaction
of the second (id 8) cannot be fetched, yet the first resolves to 1000 sats,
so the code reports `fee = 1000 − 400 = 600` instead of the `null` the claim
requires for a transaction with an unresolved previous output. -/
theorem transfer_fee_field_counterexample :
    getTransfers chainC5 selfKey .all 10 0 =
      .ok [⟨1, 5, 400, 0, .incoming, selfKey, some 600, selfKey⟩] ∧
    chainC5.getTx 1 = some ⟨[⟨9, 0⟩, ⟨8, 0⟩], [⟨400, p2trScript selfKey⟩]⟩ ∧
    chainC5.getTx 8 = none ∧
    (some (600 : Int)) ≠ none := by
  exact ⟨by decide, by decide, by decide, by decide⟩

/-- C5 witness: the corrected fee relation at the concrete chain, via
`transfer_fee_field_corrected`. -/
theorem transfer_fee_field_corrected_witness :
    ∃ tx, chainC5.getTx 1 = some tx ∧
      (⟨1, 5, 400, 0, .incoming, selfKey, some 600, selfKey⟩ : Transfer).fee =
        (if 0 < getInputValue chainC5.getTx tx.ins
          then some (getInputValue chainC5.getTx tx.ins - txOutTotal tx)
          else none) :=
  transfer_fee_field_corrected chainC5 selfKey .all 10 0
    [⟨1, 5, 400, 0, .incoming, selfKey, some 600, selfKey⟩] (by decide)
    ⟨1, 5, 400, 0, .incoming, selfKey, some 600, selfKey⟩ (by decide)

/-- C4 (code bug): `skip` drops history *transactions* before records are
materialised (`history.slice(skip)`), while the documented contract — and the
claimed pagination identity — count skipped *transfer records*.  With
transaction 1 yielding two records and transaction 2 one,
`getTransfers(skip 1, limit 1)` returns transaction 2's record, whereas
`getTransfers(limit 2).slice(1, 2)` is transaction 1's second record. -/
theorem pagination_skip_bug :
    getTransfers chainC4 selfKey .all 1 1 =
      .ok [⟨2, 11, 300, 0, .incoming, selfKey, none, selfKey⟩] ∧
    getTransfers chainC4 selfKey .all 2 0 =
      .ok [⟨1, 10, 100, 0, .incoming, selfKey, none, selfKey⟩,
        ⟨1, 10, 200, 1, .incoming, selfKey, none, selfKey⟩] ∧
    (([⟨1, 10, 100, 0, .incoming, selfKey, none, selfKey⟩,
        ⟨1, 10, 200, 1, .incoming, selfKey, none, selfKey⟩] :
      List Transfer).drop 1).take 1 =
      [⟨1, 10, 200, 1, .incoming, selfKey, none, selfKey⟩] ∧
    ([⟨2, 11, 300, 0, .incoming, selfKey, none, selfKey⟩] : List Transfer) ≠
      [⟨1, 10, 200, 1, .incoming, selfKey, none, selfKey⟩] := by
  exact ⟨by decide, by decide, by decide, by decide⟩

/-- Hex digits decode back to their index. -/
lemma hexDigitVal_getD : ∀ n < 16, hexDigitVal (hexDigits.getD n '0') = n := by
  decide

/-- `Buffer.from(buf.toString('hex'), 'hex')` restores the byte list: the hex
transport of signatures in `sign`/`verify` is lossless. -/
lemma hexDecode_hexEncode (bs : List Nat) (hb : ∀ b ∈ bs, b < 256) :
    hexDecode (hexEncode bs) = bs := by
  induction bs with
  | nil => rfl
  | cons b rest ih =>
    have hblt := hb b (by simp)
    have h1 : hexDigitVal (hexDigits.getD (b / 16) '0') = b / 16 :=
      hexDigitVal_getD _ (by omega)
    have h2 : hexDigitVal (hexDigits.getD (b % 16) '0') = b % 16 :=
      hexDigitVal_getD _ (by omega)
    simp only [hexEncode, List.flatMap_cons, byteToHex, List.cons_append,
      List.nil_append]
    simp only [hexDecode, h1, h2]
    have ih2 := ih (fun x hx => hb x (by simp [hx]))
    simp only [hexEncode] at ih2
    rw [ih2]
    congr 1
    omega

/-- C8: conditional on the external primitives' contract — signatures verify
against their own hash, fail against any other hash, and the hash is
collision-free, with signature bytes in range — the account's `verify`
accepts `sign`'s output for the same message and rejects it for any other
message.  The repository-level content proved outright is the lossless hex
transport and the consistent SHA-256 hashing on both sides. -/
theorem sign_verify_roundtrip (prim : EccOps) (sha256 : String → List Nat)
    (m m' : String)
    (hbytes : ∀ m0 : String, ∀ b ∈ prim.sign (sha256 m0), b < 256)
    (hround : ∀ h : List Nat, prim.verify h (prim.sign h) = true)
    (hreject : ∀ h h' : List Nat, h ≠ h' → prim.verify h' (prim.sign h) = false)
    (hinj : ∀ x y : String, sha256 x = sha256 y → x = y)
    (hne : m ≠ m') :
    walletVerify prim sha256 m (walletSign prim sha256 m) = true ∧
    walletVerify prim sha256 m' (walletSign prim sha256 m) = false := by
  have hdec : hexDecode (hexEncode (prim.sign (sha256 m))) =
      prim.sign (sha256 m) :=
    hexDecode_hexEncode _ (hbytes m)
  constructor
  · simp only [walletVerify, walletSign, hdec]
    exact hround _
  · simp only [walletVerify, walletSign, hdec]
    exact hreject _ _ (fun hcol => hne (hinj _ _ hcol))

/-- Every character's code point is below `0x110000`. -/
lemma char_toNat_lt (c : Char) : c.toNat < 1114112 := by
  have h : c.val.toNat < 0xd800 ∨ (0xe000 ≤ c.val.toNat ∧ c.val.toNat < 0x110000) :=
    c.valid
  have hv : c.toNat = c.val.toNat := rfl
  rcases h with h | ⟨_, h⟩ <;> omega

/-- The 3-byte character encoding is injective. -/
lemma char3_inj (c c' : Char) (h : char3 c = char3 c') : c = c' := by
  simp only [char3, List.cons.injEq, and_true] at h
  obtain ⟨h1, h2, h3⟩ := h
  have hc := char_toNat_lt c
  have hc' := char_toNat_lt c'
  have heq : c.toNat = c'.toNat := by omega
  calc c = Char.ofNat c.toNat := (Char.ofNat_toNat c).symm
    _ = Char.ofNat c'.toNat := by rw [heq]
    _ = c' := Char.ofNat_toNat c'

/-- Concatenating the fixed-width character encodings stays injective. -/
lemma flatMap_char3_inj :
    ∀ (l1 l2 : List Char), l1.flatMap char3 = l2.flatMap char3 → l1 = l2
  | [], [], _ => rfl
  | [], c :: l2, h => by simp [char3] at h
  | c :: l1, [], h => by simp [char3] at h
  | c :: l1, c' :: l2, h => by
    simp only [List.flatMap_cons, char3, List.cons_append, List.nil_append] at h
    injection h with h1 h
    injection h with h2 h
    injection h with h3 hrest
    have hc : c = c' := char3_inj c c' (by simp [char3, h1, h2, h3])
    rw [hc, flatMap_char3_inj l1 l2 hrest]

/-- The toy hash is injective on strings. -/
lemma toySha_inj : ∀ x y : String, toySha x = toySha y → x = y := by
  intro x y h
  have hdata := flatMap_char3_inj x.data y.data h
  cases x
  cases y
  exact congrArg String.mk hdata

/-- The toy scheme's signature bytes are in range. -/
lemma toySha_bytes (m0 : String) : ∀ b ∈ toyEcc.sign (toySha m0), b < 256 := by
  intro b hb
  simp only [toyEcc, toySha, List.mem_flatMap] at hb
  obtain ⟨c, _, hc⟩ := hb
  have := char_toNat_lt c
  simp only [char3, List.mem_cons, List.mem_singleton, List.not_mem_nil,
    or_false] at hc
  rcases hc with h | h | h <;> omega

/-- C8 witness: the toy scheme at messages `"a"` and `"b"`, via
`sign_verify_roundtrip`. -/
theorem sign_verify_roundtrip_witness :
    walletVerify toyEcc toySha "a" (walletSign toyEcc toySha "a") = true ∧
    walletVerify toyEcc toySha "b" (walletSign toyEcc toySha "a") = false :=
  sign_verify_roundtrip toyEcc toySha "a" "b"
    toySha_bytes
    (fun h => by simp [toyEcc])
    (fun h h' hne => by simp [toyEcc, hne])
    toySha_inj
    (by decide)

/-- C9: corrected form.  `dispose` overwrites the private-key buffer with
zeros and clears the account, and every subsequent signing operation fails —
but with a `TypeError` from reading a property of the now-`undefined`
`this._account`, not with a dedicated `Disposed` error, which the code never
constructs (see `dispose_error_kind_counterexample`).  For the send pipeline
the failure surfaces inside `createPsbt`'s signing block
(`ecc.privateAdd(this._account.privateKey, ...)`), here under the hypotheses
that rule out the earlier dust and insufficient-balance errors. -/
theorem dispose_zeroizes_corrected (a : AccountState) (prim : EccOps)
    (sha256 : String → List Nat) (msg : String) (s r : String)
    (utxoSet : List CollectedUtxo) (amount : Int) (feeRate : ℚ) (vsize : Nat) :
    (dispose a).privKey = List.replicate a.privKey.length 0 ∧
    (dispose a).accountCleared = true ∧
    signMessage (dispose a) prim sha256 msg = .error .typeError ∧
    (DUST_LIMIT < amount → 0 ≤ utxoTotal utxoSet - amount →
      getRawTransaction s r utxoSet amount feeRate vsize true =
        .error .typeError) := by
  refine ⟨rfl, rfl, rfl, fun h1 h2 => ?_⟩
  simp only [getRawTransaction]
  rw [if_neg (not_le.mpr h1)]
  have hpsbt : createPsbt s r (utxoTotal utxoSet) amount 0 true =
      .error .typeError := by
    simp only [createPsbt]
    by_cases hc : DUST_LIMIT < utxoTotal utxoSet - amount - 0
    · rw [if_pos hc]
      simp
    · rw [if_neg hc, if_neg (by omega)]
      simp
  simp [hpsbt]

/-- C9 counterexample: after `dispose`, `sign` fails with the `TypeError`
kind, which is not the `Disposed` error kind the claim names. -/
theorem dispose_error_kind_counterexample :
    signMessage (dispose ⟨[7, 7, 7], false⟩) toyEcc toySha "hello" =
      .error .typeError ∧
    Err.typeError ≠ Err.disposed := by
  exact ⟨rfl, by decide⟩

/-- C9 witness: a disposed account with ample funds still fails the build,
with the `TypeError` kind, via `dispose_zeroizes_corrected`. -/
theorem dispose_zeroizes_corrected_witness :
    getRawTransaction "s" "r" [⟨1, 0, 5000, 0, 5000, []⟩] 600 1 100 true =
      .error .typeError :=
  (dispose_zeroizes_corrected ⟨[7], false⟩ toyEcc toySha "m" "s" "r"
    [⟨1, 0, 5000, 0, 5000, []⟩] 600 1 100).2.2.2 (by decide) (by decide)

end WdkWalletBtc
